import Mathlib

/-!
Verification of the govreposcrape ingestion pipeline (Python source under
`src/container/`).  The definitions below are shallow embeddings of the
Python functions named after them; Python strings are modelled as `List Char`
(Python `len`/slicing are character-based), Python integers as `Int` (or
`Nat` where the source value is provably non-negative), and fallible calls
as explicit outcome types.
-/

namespace GovRepoScrape

/-! ## Work partitioner — `ingest.py`, `filter_repos_for_batch` (lines 256-288)

The Python body is the comprehension
`[repo for idx, repo in enumerate(repos) if idx % batch_size == offset]`.
`enumerateFrom i` models Python `enumerate` starting at index `i`. -/

/-- Python `enumerate(l)` starting at index `i`: pairs each element with its
zero-based position. -/
def enumerateFrom {α : Type} (i : Nat) : List α → List (Nat × α)
  | [] => []
  | x :: xs => (i, x) :: enumerateFrom (i + 1) xs

/-- The index/value pairs selected for a given `(batch_size, offset)` pair:
the filter of `filter_repos_for_batch` before the values are projected out. -/
def selectedPairs {α : Type} (repos : List α) (batch_size offset : Nat) :
    List (Nat × α) :=
  (enumerateFrom 0 repos).filter (fun p => p.1 % batch_size == offset)

/-- `ingest.filter_repos_for_batch`: keep the repos whose zero-based index is
congruent to `offset` modulo `batch_size` (indices are naturals, and the CLI
claims constrain `batch_size ≥ 1`, so `Nat` arithmetic coincides with
Python's `%` here). -/
def filter_repos_for_batch {α : Type} (repos : List α)
    (batch_size offset : Nat) : List α :=
  (selectedPairs repos batch_size offset).map Prod.snd

theorem enumerateFrom_cons {α : Type} (i : Nat) (x : α) (xs : List α) :
    enumerateFrom i (x :: xs) = (i, x) :: enumerateFrom (i + 1) xs := rfl

theorem map_snd_enumerateFrom {α : Type} (i : Nat) (l : List α) :
    (enumerateFrom i l).map Prod.snd = l := by
  induction l generalizing i with
  | nil => rfl
  | cons x xs ih => simp [enumerateFrom, ih]

theorem mem_enumerateFrom_bounds {α : Type} {j : Nat} {x : α} :
    ∀ {k : Nat} {l : List α}, (j, x) ∈ enumerateFrom k l →
      k ≤ j ∧ j < k + l.length := by
  intro k l
  induction l generalizing k with
  | nil => intro h; cases h
  | cons y ys ih =>
    intro h
    rcases List.mem_cons.mp h with h | h
    · have h1 : j = k := congrArg Prod.fst h
      simp only [List.length_cons]
      omega
    · have := ih h
      simp only [List.length_cons]
      omega

theorem exists_mem_enumerateFrom {α : Type} :
    ∀ {k j : Nat} (l : List α), k ≤ j → j < k + l.length →
      ∃ x, (j, x) ∈ enumerateFrom k l := by
  intro k j l
  induction l generalizing k with
  | nil => intro _ h2; simp at h2; omega
  | cons y ys ih =>
    intro h1 h2
    rcases Nat.eq_or_lt_of_le h1 with rfl | hlt
    · exact ⟨y, List.mem_cons_self _ _⟩
    · obtain ⟨x, hx⟩ := ih (k := k + 1) hlt (by simp at h2 ⊢; omega)
      exact ⟨x, List.mem_cons_of_mem _ hx⟩

theorem mem_selectedPairs {α : Type} {repos : List α} {B o : Nat}
    {p : Nat × α} :
    p ∈ selectedPairs repos B o ↔ p ∈ enumerateFrom 0 repos ∧ p.1 % B = o := by
  simp [selectedPairs, List.mem_filter]

theorem mem_selectedPairs_fst {α : Type} {repos : List α} {B o i : Nat} :
    i ∈ (selectedPairs repos B o).map Prod.fst ↔
      i < repos.length ∧ i % B = o := by
  constructor
  · rintro h
    obtain ⟨p, hp, rfl⟩ := List.mem_map.mp h
    obtain ⟨henum, hmod⟩ := mem_selectedPairs.mp hp
    obtain ⟨x⟩ := p
    have := mem_enumerateFrom_bounds henum
    exact ⟨by omega, hmod⟩
  · rintro ⟨hlt, hmod⟩
    obtain ⟨x, hx⟩ := exists_mem_enumerateFrom (k := 0) (j := i) repos
      (Nat.zero_le i) (by omega)
    exact List.mem_map.mpr ⟨(i, x), mem_selectedPairs.mpr ⟨hx, hmod⟩, rfl⟩

theorem flatten_filter_mod_perm {α : Type} {B : Nat} (hB : 0 < B) :
    ∀ l : List (Nat × α),
      (((List.range B).map
          (fun o => l.filter (fun p => p.1 % B == o))).flatten).Perm l := by
  intro l
  induction l with
  | nil => simp
  | cons x l ih =>
    have hmem : x.1 % B ∈ List.range B := List.mem_range.mpr (Nat.mod_lt _ hB)
    obtain ⟨s, t, hst⟩ := List.append_of_mem hmem
    have hnd : (List.range B).Nodup := List.nodup_range B
    rw [hst, List.nodup_append] at hnd
    have has : x.1 % B ∉ s := fun h => (hnd.2.2 h (List.mem_cons_self _ t)).elim
    have hat : x.1 % B ∉ t := (List.nodup_cons.mp hnd.2.1).1
    have hcons : ∀ o, o ≠ x.1 % B →
        (x :: l).filter (fun p => p.1 % B == o) =
          l.filter (fun p => p.1 % B == o) := by
      intro o ho
      rw [List.filter_cons]
      have : (x.1 % B == o) = false := by
        simp only [beq_eq_false_iff_ne, ne_eq]
        exact fun h => ho h.symm
      simp [this]
    have hconsa : (x :: l).filter (fun p => p.1 % B == x.1 % B) =
        x :: l.filter (fun p => p.1 % B == x.1 % B) := by
      rw [List.filter_cons]
      simp
    have hS : (s.map fun o => (x :: l).filter (fun p => p.1 % B == o)) =
        s.map fun o => l.filter (fun p => p.1 % B == o) :=
      List.map_congr_left (by
        intro o ho
        exact hcons o (by rintro rfl; exact has ho))
    have hT : (t.map fun o => (x :: l).filter (fun p => p.1 % B == o)) =
        t.map fun o => l.filter (fun p => p.1 % B == o) :=
      List.map_congr_left (by
        intro o ho
        exact hcons o (by rintro rfl; exact hat ho))
    rw [hst, List.map_append, List.map_cons, List.flatten_append,
      List.flatten_cons, hconsa, hS, hT, List.cons_append]
    rw [hst, List.map_append, List.map_cons, List.flatten_append,
      List.flatten_cons] at ih
    exact List.Perm.trans List.perm_middle (ih.cons x)

theorem flatten_batches_perm {α : Type} (repos : List α) {B : Nat}
    (hB : 0 < B) :
    (((List.range B).map (filter_repos_for_batch repos B)).flatten).Perm
      repos := by
  have h1 : (List.range B).map (filter_repos_for_batch repos B) =
      ((List.range B).map
        (fun o => (enumerateFrom 0 repos).filter
          (fun p => p.1 % B == o))).map (List.map Prod.snd) := by
    rw [List.map_map]
    rfl
  rw [h1, ← List.map_flatten]
  have h2 := (flatten_filter_mod_perm hB (enumerateFrom 0 repos)).map Prod.snd
  rwa [map_snd_enumerateFrom] at h2

/-- C1: partition coverage and disjointness of `filter_repos_for_batch`
(`ingest.py` lines 256-288).  For every repo list and `batch_size ≥ 1`:
(i) each zero-based index of the list is selected for exactly one offset in
`[0, batch_size)`; (ii) concatenating the outputs over all offsets is a
permutation of the input (no duplicates, no omissions); (iii) the selections
of two distinct offsets are disjoint (stated on the index-tagged selections,
which is what "the same index is never handed to two workers" means);
(iv) `batch_size = 1, offset = 0` returns the input unchanged; and
(v) an empty input yields an empty output for every offset. -/
theorem c1_partition_coverage {α : Type} (repos : List α) (B : Nat)
    (hB : 1 ≤ B) :
    (∀ i, i < repos.length →
      ∃! o, o < B ∧ i ∈ (selectedPairs repos B o).map Prod.fst) ∧
    (((List.range B).map (filter_repos_for_batch repos B)).flatten).Perm
      repos ∧
    (∀ o1 o2, o1 < B → o2 < B → o1 ≠ o2 →
      List.Disjoint (selectedPairs repos B o1) (selectedPairs repos B o2)) ∧
    filter_repos_for_batch repos 1 0 = repos ∧
    (∀ o, filter_repos_for_batch ([] : List α) B o = []) := by
  refine ⟨?_, flatten_batches_perm repos hB, ?_, ?_, fun o => rfl⟩
  · intro i hi
    refine ⟨i % B, ⟨Nat.mod_lt _ hB, mem_selectedPairs_fst.mpr ⟨hi, rfl⟩⟩, ?_⟩
    rintro o ⟨-, ho⟩
    exact (mem_selectedPairs_fst.mp ho).2.symm
  · intro o1 o2 _ _ hne p hp1 hp2
    exact hne ((mem_selectedPairs.mp hp1).2.symm.trans
      (mem_selectedPairs.mp hp2).2)
  · unfold filter_repos_for_batch selectedPairs
    rw [List.filter_eq_self.mpr, map_snd_enumerateFrom]
    intro p _
    simp [Nat.mod_one]

/-- Witness for C1 at the concrete input `repos = [10, 20, 30]`,
`batch_size = 2`. -/
theorem c1_partition_coverage_witness :
    1 ≤ 2 ∧
    ((∀ i, i < [10, 20, 30].length →
      ∃! o, o < 2 ∧ i ∈ (selectedPairs [10, 20, 30] 2 o).map Prod.fst) ∧
    (((List.range 2).map (filter_repos_for_batch [10, 20, 30] 2)).flatten).Perm
      [10, 20, 30] ∧
    (∀ o1 o2, o1 < 2 → o2 < 2 → o1 ≠ o2 →
      List.Disjoint (selectedPairs [10, 20, 30] 2 o1)
        (selectedPairs [10, 20, 30] 2 o2)) ∧
    filter_repos_for_batch [10, 20, 30] 1 0 = [10, 20, 30] ∧
    (∀ o, filter_repos_for_batch ([] : List Nat) 2 o = [])) :=
  ⟨by decide, c1_partition_coverage [10, 20, 30] 2 (by decide)⟩

/-! ## Retry/backoff executor — `ingest.py`, `retry_with_backoff` (lines 187-217)

The operation is modelled as `f : Nat → Except E A` giving the outcome of the
`n`-th invocation (0-based).  The model returns the final outcome (`none`
only in the vacuous `max_attempts = 0` case, where the Python loop body never
runs), the number of invocations of `f`, and the list of sleep durations in
order.  The Python `for attempt in range(max_attempts)` loop is expressed as
structural recursion on `remaining = max_attempts - attempt`; the source's
last-attempt test `attempt == max_attempts - 1` becomes `remaining = 1`. -/

/-- The sleep picked before retrying after attempt `attempt`:
`delays[attempt] if attempt < len(delays) else delays[-1]` (the `getLastD 0`
default is unreachable for the non-empty schedules the code passes). -/
def delayFor (delays : List Nat) (attempt : Nat) : Nat :=
  if h : attempt < delays.length then delays.get ⟨attempt, h⟩
  else delays.getLastD 0

def retryAux {E A : Type} (f : Nat → Except E A) (delays : List Nat) :
    Nat → Nat → Option (Except E A) × Nat × List Nat
  | _, 0 => (none, 0, [])
  | attempt, remaining + 1 =>
    match f attempt with
    | .ok a => (some (.ok a), 1, [])
    | .error e =>
      if remaining = 0 then (some (.error e), 1, [])
      else
        let r := retryAux f delays (attempt + 1) remaining
        (r.1, r.2.1 + 1, delayFor delays attempt :: r.2.2)

/-- `ingest.retry_with_backoff(func, max_attempts, delays)`. -/
def retry_with_backoff {E A : Type} (f : Nat → Except E A)
    (max_attempts : Nat) (delays : List Nat) :
    Option (Except E A) × Nat × List Nat :=
  retryAux f delays 0 max_attempts

theorem retryAux_all_fail {E A : Type} (f : Nat → Except E A) (e : Nat → E)
    (hf : ∀ n, f n = .error (e n)) (delays : List Nat) :
    ∀ remaining attempt, 0 < remaining →
      retryAux f delays attempt remaining =
        (some (.error (e (attempt + remaining - 1))), remaining,
          (List.range' attempt (remaining - 1)).map (delayFor delays)) := by
  intro remaining
  induction remaining with
  | zero => omega
  | succ n ih =>
    intro attempt _
    rcases Nat.eq_zero_or_pos n with rfl | hn
    · simp [retryAux, hf attempt]
    · have hrec := ih (attempt + 1) hn
      simp only [retryAux, hf attempt, if_neg (Nat.pos_iff_ne_zero.mp hn),
        hrec]
      have h1 : attempt + 1 + n - 1 = attempt + (n + 1) - 1 := by omega
      have h2 : List.range' attempt (n + 1 - 1) =
          attempt :: List.range' (attempt + 1) (n - 1) := by
        rw [show n + 1 - 1 = (n - 1) + 1 from by omega, List.range'_succ]
      rw [h1, h2, List.map_cons]

theorem delayFor_exhausted (delays : List Nat) (attempt : Nat)
    (h : delays ≠ []) (hlen : delays.length ≤ attempt) :
    delayFor delays attempt = delays.getLast h := by
  unfold delayFor
  rw [dif_neg (by omega)]
  rw [List.getLastD_eq_getLast?, List.getLast?_eq_getLast _ h]
  rfl

/-- C5: behaviour of `retry_with_backoff` (`ingest.py` lines 187-217) with
`max_attempts = 3` and schedule `[d0, d1, d2]`: (i) if the operation fails on
every call it is invoked exactly 3 times, the sleeps are `d0` then `d1`, and
the third failure is re-raised; (ii) if it fails exactly twice then succeeds,
the success value is returned after exactly 3 invocations; (iii) when the
attempt index reaches past the schedule, the schedule's last entry is the
delay used. -/
theorem c5_retry_behavior {E A : Type} (f g : Nat → Except E A) (e : Nat → E)
    (a : A) (d0 d1 d2 : Nat)
    (hf : ∀ n, f n = .error (e n))
    (hg0 : g 0 = .error (e 0)) (hg1 : g 1 = .error (e 1))
    (hg2 : g 2 = .ok a) :
    retry_with_backoff f 3 [d0, d1, d2] =
      (some (.error (e 2)), 3, [d0, d1]) ∧
    retry_with_backoff g 3 [d0, d1, d2] = (some (.ok a), 3, [d0, d1]) ∧
    (∀ (delays : List Nat) (attempt : Nat) (h : delays ≠ []),
      delays.length ≤ attempt → delayFor delays attempt = delays.getLast h) := by
  refine ⟨?_, ?_, fun delays attempt h hlen => delayFor_exhausted _ _ h hlen⟩
  · rw [retry_with_backoff, retryAux_all_fail f e hf _ 3 0 (by omega)]
    simp [List.range', delayFor]
  · simp [retry_with_backoff, retryAux, hg0, hg1, hg2, delayFor]

/-- Witness for C5 at concrete operations: `f` always failing with the call
index as the error, `g` failing twice then returning `7`, delays `[1, 2, 4]`. -/
theorem c5_retry_behavior_witness :
    retry_with_backoff (fun n => (.error n : Except Nat Nat)) 3 [1, 2, 4] =
      (some (.error 2), 3, [1, 2]) ∧
    retry_with_backoff
      (fun n => if n < 2 then (.error n : Except Nat Nat) else .ok 7) 3
      [1, 2, 4] = (some (.ok 7), 3, [1, 2]) ∧
    (∀ (delays : List Nat) (attempt : Nat) (h : delays ≠ []),
      delays.length ≤ attempt →
        delayFor delays attempt = delays.getLast h) :=
  c5_retry_behavior (fun n => .error n)
    (fun n => if n < 2 then .error n else .ok 7) (fun n => n) 7 1 2 4
    (fun _ => rfl) rfl rfl rfl

/-! ## Change-detection cache client — `cache.py`, `check_cache` (lines 56-118)

The HTTP interaction is modelled explicitly: the `requests.get` call either
raises a transport exception (`Except.error`) or yields a response carrying a
status code and a body.  The body is either JSON-unparseable (`Except.error`,
in which case `response.json()` raises `requests.exceptions.JSONDecodeError`,
a subclass of `requests.RequestException`, hence caught by the handler at
line 111) or a parsed JSON value.  Python's `data.get("reason", "cache-miss")`
on a non-dict JSON value raises `AttributeError`, which the handler does not
catch; `PyOutcome.raised` records that the call propagates an exception. -/

inductive Json : Type
  | obj (fields : List (String × Json))
  | arr (elems : List Json)
  | str (s : String)
  | num (n : Int)
  | jbool (b : Bool)
  | null

/-- First-match association lookup; Python dicts parsed from JSON have unique
keys, so this models `dict.get`. -/
def jlookup : List (String × Json) → String → Option Json
  | [], _ => none
  | (k, v) :: rest, key => if k = key then some v else jlookup rest key

structure HttpResponse where
  status : Nat
  body : Except Unit Json

/-- The `CacheCheckResult` TypedDict of `cache.py` (lines 45-49); `reason` is
kept as a JSON value because a 404 body may carry a non-string `reason`. -/
structure CacheCheckResult where
  needs_processing : Bool
  reason : Json
  cached_entry : Option Json

/-- Outcome of a Python call: either a returned value or an uncaught
exception propagating to the caller. -/
inductive PyOutcome (α : Type) : Type
  | returned (a : α)
  | raised

/-- `cache.check_cache(org, repo, pushed_at)` against a given outcome of the
`requests.get` call (`org`, `repo`, `pushed_at` only shape the request URL,
which the model keeps abstract). -/
def check_cache (org repo pushed_at : String)
    (resp : Except Unit HttpResponse) : PyOutcome CacheCheckResult :=
  match resp with
  | .error _ => .returned ⟨true, .str "cache-miss", none⟩
  | .ok r =>
    if r.status = 200 then
      match r.body with
      | .ok j => .returned ⟨false, .str "cache-hit", some j⟩
      | .error _ => .returned ⟨true, .str "cache-miss", none⟩
    else if r.status = 404 then
      match r.body with
      | .ok (.obj fields) =>
        .returned ⟨true, (jlookup fields "reason").getD (.str "cache-miss"),
          none⟩
      | .ok _ => .raised
      | .error _ => .returned ⟨true, .str "cache-miss", none⟩
    else .returned ⟨true, .str "cache-miss", none⟩

/-- C4 counterexample: the claim fails on two points.  A 200 response whose
JSON body is not a cache entry (here the empty array) still yields
`needs_processing = false` — the code never validates the body's shape — and
a 404 response whose JSON body is not an object makes `check_cache` raise
`AttributeError` (`data.get` on a non-dict), so `check_cache` is not
exception-free. -/
theorem c4_check_cache_counterexample :
    check_cache "o" "r" "t" (.ok ⟨200, .ok (.arr [])⟩) =
      .returned ⟨false, .str "cache-hit", some (.arr [])⟩ ∧
    check_cache "o" "r" "t" (.ok ⟨404, .ok (.num 5)⟩) = .raised :=
  ⟨rfl, rfl⟩

/-- C4 amended: `check_cache` returns `needs_processing = false` exactly on a
200 response with a JSON-parseable body (whatever its shape, stored as
`cached_entry`); on a transport exception, an unparseable body, or any status
other than 200 and 404 it returns `needs_processing = true`, reason
`cache-miss`, `cached_entry = None` without raising; on a 404 with a JSON
object body it returns `needs_processing = true` with the body's `reason`
field (default `cache-miss`); but on a 404 whose JSON body is not an object
it raises (`AttributeError` from `data.get`). -/
theorem c4_check_cache_characterization (org repo ts : String)
    (resp : Except Unit HttpResponse) :
    (∀ e, resp = .error e →
      check_cache org repo ts resp =
        .returned ⟨true, .str "cache-miss", none⟩) ∧
    (∀ r j, resp = .ok r → r.status = 200 → r.body = .ok j →
      check_cache org repo ts resp =
        .returned ⟨false, .str "cache-hit", some j⟩) ∧
    (∀ r, resp = .ok r → r.body = .error () →
      check_cache org repo ts resp =
        .returned ⟨true, .str "cache-miss", none⟩) ∧
    (∀ r fields, resp = .ok r → r.status = 404 → r.body = .ok (.obj fields) →
      check_cache org repo ts resp =
        .returned ⟨true, (jlookup fields "reason").getD (.str "cache-miss"),
          none⟩) ∧
    (∀ r j, resp = .ok r → r.status = 404 → r.body = .ok j →
      (∀ fields, j ≠ .obj fields) → check_cache org repo ts resp = .raised) ∧
    (∀ r, resp = .ok r → r.status ≠ 200 → r.status ≠ 404 →
      check_cache org repo ts resp =
        .returned ⟨true, .str "cache-miss", none⟩) := by
  refine ⟨?_, ?_, ?_, ?_, ?_, ?_⟩
  · rintro e rfl; rfl
  · rintro ⟨st, body⟩ j rfl h1 h2
    subst h1; cases h2; rfl
  · rintro ⟨st, body⟩ rfl h
    cases h
    simp only [check_cache]
    by_cases h200 : st = 200
    · simp [h200]
    · by_cases h404 : st = 404 <;> simp [h200, h404]
  · rintro ⟨st, body⟩ fields rfl h1 h2
    subst h1; cases h2; rfl
  · rintro ⟨st, body⟩ j rfl h1 h2 hnotobj
    subst h1; cases h2
    cases j with
    | obj fields => exact absurd rfl (hnotobj fields)
    | arr elems => rfl
    | str s => rfl
    | num n => rfl
    | jbool b => rfl
    | null => rfl
  · rintro ⟨st, body⟩ rfl h1 h2
    simp [check_cache, h1, h2]

/-- Witness for C4 applying the characterization at concrete responses:
a transport failure, a 200 hit carrying an object body, and a 500. -/
theorem c4_check_cache_characterization_witness :
    check_cache "alphagov" "govuk-frontend" "2025-01-01T00:00:00Z"
      (.error ()) = .returned ⟨true, .str "cache-miss", none⟩ ∧
    check_cache "alphagov" "govuk-frontend" "2025-01-01T00:00:00Z"
      (.ok ⟨200, .ok (.obj [("pushedAt", .str "2025-01-01T00:00:00Z")])⟩) =
      .returned ⟨false, .str "cache-hit",
        some (.obj [("pushedAt", .str "2025-01-01T00:00:00Z")])⟩ ∧
    check_cache "alphagov" "govuk-frontend" "2025-01-01T00:00:00Z"
      (.ok ⟨500, .ok .null⟩) = .returned ⟨true, .str "cache-miss", none⟩ :=
  ⟨(c4_check_cache_characterization "alphagov" "govuk-frontend"
      "2025-01-01T00:00:00Z" (.error ())).1 () rfl,
   (c4_check_cache_characterization "alphagov" "govuk-frontend"
      "2025-01-01T00:00:00Z" _).2.1 _ _ rfl rfl rfl,
   (c4_check_cache_characterization "alphagov" "govuk-frontend"
      "2025-01-01T00:00:00Z" _).2.2.2.2.2 _ rfl (by decide) (by decide)⟩

/-! ## Repository processor — `ingest.py`, `process_repository` (lines 291-434)

The external gitingest call (already wrapped in `retry_with_backoff`) is
abstracted to its overall outcome: a result value of one of the three shapes
the code distinguishes (lines 340-352), a `TimeoutError` raised by the
SIGALRM handler, or any other exception escaping the retried call.
`upload_summary_to_r2` (lines 133-184) catches every exception and returns a
boolean, so it is abstracted to the boolean `uploadOk`.  Every `signal.alarm`
call is recorded in order in `alarmTrace`: `[300]` at line 326, `0` at
line 355 (success), line 395 (timeout handler) and line 415 (`finally`). -/

/-- The three return shapes accepted from the summarizer, in the priority
order of the source: `.summary` attribute first, 2-tuple second, arbitrary
value stringified last. -/
inductive GitResult : Type
  | withSummary (s : List Char)
  | pairRes (s t : List Char)
  | otherRepr (r : List Char)
deriving DecidableEq

inductive SummOutcome : Type
  | ok (r : GitResult)
  | timeout
  | raises (err : String)
deriving DecidableEq

structure ProcEnv where
  gitingestAvailable : Bool
  summarizer : SummOutcome
  uploadOk : Bool
deriving DecidableEq

/-- The result dict of `process_repository`; `uploaded` and
`contentUploaded` are `none` on paths where the source dict has no
`uploaded` key / never calls the upload.  `alarmTrace` lists the arguments
of the `signal.alarm` calls executed, in order. -/
structure ProcResult where
  success : Bool
  summary : Option (List Char)
  error : Option String
  uploaded : Option Bool
  contentUploaded : Option (List Char)
  alarmTrace : List Nat
deriving DecidableEq

/-- Summary extraction (`ingest.py` lines 340-352): `.summary` attribute
first, then 2-tuple first component, then `str(result)`. -/
def summaryOf : GitResult → List Char
  | .withSummary s => s
  | .pairRes s _ => s
  | .otherRepr r => r

/-- `ingest.process_repository(repo_url, upload_to_r2)`. -/
def process_repository (env : ProcEnv) (upload_to_r2 : Bool) : ProcResult :=
  if env.gitingestAvailable = false then
    { success := false, summary := none,
      error := some "gitingest library not installed", uploaded := none,
      contentUploaded := none, alarmTrace := [] }
  else
    match env.summarizer with
    | .ok r =>
      let s := summaryOf r
      { success := true, summary := some s, error := none,
        uploaded := some (upload_to_r2 && env.uploadOk),
        contentUploaded := if upload_to_r2 then some s else none,
        alarmTrace := [300, 0, 0] }
    | .timeout =>
      { success := false, summary := none,
        error := some "Timeout after 5 minutes", uploaded := none,
        contentUploaded := none, alarmTrace := [300, 0, 0] }
    | .raises err =>
      { success := false, summary := none, error := some err,
        uploaded := none, contentUploaded := none, alarmTrace := [300, 0] }

/-- Bool-valued test used in the success characterization: did the retried
summarizer call produce a value? -/
def summOk : SummOutcome → Bool
  | .ok _ => true
  | _ => false

/-! ## Orchestrator loop — `orchestrator.py`, `main` (lines 441-508) -/

/-- A feed entry as the orchestrator reads it: `none` models a missing key
(`dict.get` returning `None`). -/
structure RepoDesc where
  url : String
  owner : Option String
  org : Option String
  name : Option String
  pushedAt : Option String
deriving DecidableEq

/-- Python truthiness of `dict.get(key)` for string-valued keys: `None` and
the empty string are falsy. -/
def pyTruthy : Option String → Bool
  | none => false
  | some s => s != ""

/-- `repo.get("owner", repo.get("org", ""))` (`orchestrator.py` line 474). -/
def orgOf (r : RepoDesc) : String := (r.owner).getD ((r.org).getD "")

structure StepResult where
  procResult : ProcResult
  cacheUpdated : Bool
  recordedSuccess : Bool
deriving DecidableEq

/-- One iteration of the orchestrator's processing loop
(`orchestrator.py` lines 466-490): process, then on success record a
success and update the cache when the cache module and the repo fields
allow it; on failure record a failure and never touch the cache. -/
def orchestrator_step (cacheAvailable : Bool) (r : RepoDesc) (env : ProcEnv) :
    StepResult :=
  let res := process_repository env true
  if res.success then
    { procResult := res,
      cacheUpdated := cacheAvailable && (orgOf r != "") && pyTruthy r.name &&
        pyTruthy r.pushedAt,
      recordedSuccess := true }
  else
    { procResult := res, cacheUpdated := false, recordedSuccess := false }

structure RunResult where
  successful : Nat
  failed : Nat
  processed : Nat
  exitCode : Nat
deriving DecidableEq

def runStep (cacheAvailable : Bool) (acc : Nat × Nat × Nat)
    (it : RepoDesc × ProcEnv) : Nat × Nat × Nat :=
  let st := orchestrator_step cacheAvailable it.1 it.2
  (acc.1 + (if st.recordedSuccess then 1 else 0),
   acc.2.1 + (if st.recordedSuccess then 0 else 1),
   acc.2.2 + 1)

/-- The orchestrator's processing loop over its partition
(`orchestrator.py` lines 441-508): every item is processed in order, the
stats accumulate one success or one failure per item, and the run ends with
`sys.exit(0)`. -/
def orchestrator_run (cacheAvailable : Bool)
    (items : List (RepoDesc × ProcEnv)) : RunResult :=
  let acc := items.foldl (runStep cacheAvailable) (0, 0, 0)
  { successful := acc.1, failed := acc.2.1, processed := acc.2.2,
    exitCode := 0 }

theorem foldl_runStep_spec (ca : Bool) :
    ∀ (items : List (RepoDesc × ProcEnv)) (a b c : Nat),
      ((items.foldl (runStep ca) (a, b, c)).1 +
          (items.foldl (runStep ca) (a, b, c)).2.1 =
        a + b + items.length) ∧
      (items.foldl (runStep ca) (a, b, c)).2.2 = c + items.length := by
  intro items
  induction items with
  | nil => intro a b c; simp
  | cons it rest ih =>
    intro a b c
    rcases Bool.eq_false_or_eq_true
        ((orchestrator_step ca it.1 it.2).recordedSuccess) with h | h
    · obtain ⟨h1, h2⟩ := ih (a + 1) b (c + 1)
      simp [List.foldl_cons, runStep, h]
      constructor <;> omega
    · obtain ⟨h1, h2⟩ := ih a (b + 1) (c + 1)
      simp [List.foldl_cons, runStep, h]
      constructor <;> omega

def sampleRepo : RepoDesc :=
  { url := "https://github.com/o/n", owner := some "o", org := none,
    name := some "n", pushedAt := some "2025-01-01T00:00:00Z" }

def envOkSmall : ProcEnv :=
  ⟨true, .ok (.withSummary "ok".toList), true⟩

def envRaises : ProcEnv := ⟨true, .raises "boom", true⟩

/-- C6: `process_repository` is total — its `success` field is `true`
exactly when the summarizer stage produced a value (and the gitingest import
succeeded), every other outcome (missing library, timeout, any exception)
being converted into a returned failure result; consequently the
orchestrator's loop processes every item of its partition, exits 0, and
accounts each item as exactly one success or failure.  For a 3-item
partition whose middle item's summarization raises, all 3 items are
processed and the final statistics are `successful = 2`, `failed = 1`,
exit code 0. -/
theorem c6_fail_safe_continuation :
    (∀ (env : ProcEnv) (u : Bool),
      (process_repository env u).success =
        (env.gitingestAvailable && summOk env.summarizer)) ∧
    (∀ (ca : Bool) (items : List (RepoDesc × ProcEnv)),
      (orchestrator_run ca items).processed = items.length ∧
      (orchestrator_run ca items).exitCode = 0 ∧
      (orchestrator_run ca items).successful +
          (orchestrator_run ca items).failed = items.length) ∧
    orchestrator_run true
      [(sampleRepo, envOkSmall), (sampleRepo, envRaises),
        (sampleRepo, envOkSmall)] =
      { successful := 2, failed := 1, processed := 3, exitCode := 0 } := by
  refine ⟨?_, ?_, by decide⟩
  · rintro ⟨avail, summ, up⟩ u
    cases avail <;> cases summ <;> rfl
  · intro ca items
    obtain ⟨h1, h2⟩ := foldl_runStep_spec ca items 0 0 0
    exact ⟨by simpa using h2, rfl, by simpa using h1⟩

/-- C2 counterexample: a repository whose summarization succeeds but whose
R2 upload fails (`uploadOk = false`).  `process_repository` still reports
`success = true` with `uploaded = false`, and the orchestrator loop — which
tests only `result.get("success")` at line 469 — invokes `update_cache`
anyway, contradicting the claim that an upload failure prevents the cache
entry from being written. -/
theorem c2_cache_update_counterexample :
    (process_repository ⟨true, .ok (.withSummary "s".toList), false⟩
        true).success = true ∧
    (process_repository ⟨true, .ok (.withSummary "s".toList), false⟩
        true).uploaded = some false ∧
    (orchestrator_step true sampleRepo
        ⟨true, .ok (.withSummary "s".toList), false⟩).cacheUpdated = true :=
  ⟨rfl, rfl, rfl⟩

/-- C2 amended: the orchestrator writes the cache entry exactly when the
summarization stage succeeded (`result["success"]` is true), the cache
module is available, and the feed entry carries truthy owner-or-org, name
and pushedAt fields; a failed upload (`uploaded = false`) does **not**
prevent the cache update.  A summarization failure does prevent it. -/
theorem c2_cache_update_condition (ca : Bool) (r : RepoDesc)
    (env : ProcEnv) :
    (orchestrator_step ca r env).cacheUpdated =
      ((process_repository env true).success && ca && (orgOf r != "") &&
        pyTruthy r.name && pyTruthy r.pushedAt) := by
  unfold orchestrator_step
  rcases Bool.eq_false_or_eq_true (process_repository env true).success with
    h | h <;> simp [h]

/-- C3 (code bug): the summarizer returns a 524289-character summary; the
content handed to the storage upload is that summary **unchanged** — the
processor applies no 512KB truncation at all (`ingest.py` line 360:
"No truncation"), contradicting the spec and the repository's own unit
tests (`test/unit/summary-truncation.test.py`), which require the first
524288 characters followed by the literal truncation notice. -/
theorem c3_no_truncation_applied :
    (process_repository
        ⟨true, .ok (.withSummary (List.replicate 524289 'x')), true⟩
        true).contentUploaded = some (List.replicate 524289 'x') ∧
    (process_repository
        ⟨true, .ok (.withSummary (List.replicate 524289 'x')), true⟩
        true).contentUploaded ≠
      some (List.replicate 524288 'x' ++
        "\n\n[... Summary truncated at 512KB limit ...]".toList) := by
  refine ⟨rfl, ?_⟩
  intro h
  rw [show (process_repository
      ⟨true, .ok (.withSummary (List.replicate 524289 'x')), true⟩
      true).contentUploaded = some (List.replicate 524289 'x') from rfl] at h
  have h1 := Option.some.inj h
  have h2 := congrArg List.length h1
  have h3 : ("\n\n[... Summary truncated at 512KB limit ...]".toList).length
      = 44 := by decide
  rw [List.length_append, List.length_replicate, List.length_replicate,
    h3] at h2
  omega

/-- Alarm state left behind by a trace of `signal.alarm` calls: armed iff
the last call had a non-zero argument. -/
def alarmArmedAfter (t : List Nat) : Bool := t.getLastD 0 != 0

/-- C9: on every exit path of `process_repository` — success, timeout,
exception from the guarded region, upload failure, and the import-error
path where the alarm is never armed — the last `signal.alarm` call is
`signal.alarm(0)`, so no alarm remains armed when the processor returns;
and whenever the gitingest import succeeds the alarm really is armed first
(the trace starts with 300 seconds). -/
theorem c9_alarm_disarmed (env : ProcEnv) (u : Bool) :
    alarmArmedAfter (process_repository env u).alarmTrace = false ∧
    (process_repository env u).alarmTrace.head? =
      (if env.gitingestAvailable then some 300 else none) := by
  rcases env with ⟨avail, summ, up⟩
  cases avail <;> cases summ <;> exact ⟨rfl, rfl⟩

/-! ## Google File Search truncation — `google_filesearch_client.py`,
`upload_summary_sync` (lines 98-113)

The source computes `upload_content = summary_content[:max_size]`, builds a
dynamically-worded note embedding the original and truncated sizes, then
**re-slices** to `upload_content[:max_size - len(note)] + note`, so the
final content is exactly `max_size` characters, not `max_size` characters
plus the note.  (`Nat` subtraction models the slice bound; the Python
negative-slice corner would need a note longer than 102400 characters,
impossible for any readable summary length.) -/

/-- The f-string truncation note of `google_filesearch_client.py` line 107,
with `max_size = 100 * 1024 = 102400`. -/
def fs_truncation_note (origLen : Nat) : List Char :=
  ("\n\n[Summary truncated from " ++ toString origLen ++
    " to 102400 bytes for Google File Search compatibility]").toList

/-- The content actually written to the temporary upload file
(`google_filesearch_client.py` lines 103-108). -/
def fs_prepare_upload_content (s : List Char) : List Char :=
  if s.length > 102400 then
    (s.take 102400).take (102400 - (fs_truncation_note s.length).length) ++
      fs_truncation_note s.length
  else s

/-- C8 counterexample: for a 102401-character summary the uploaded content
is **not** the first 102400 characters followed by the notice — the code
re-slices so that content plus notice fit in 102400 characters total. -/
theorem c8_fs_truncation_counterexample :
    fs_prepare_upload_content (List.replicate 102401 'x') ≠
      (List.replicate 102401 'x').take 102400 ++ fs_truncation_note 102401 := by
  intro h
  have hL : (fs_truncation_note 102401).length = 86 := by decide
  have hLHS : (fs_prepare_upload_content (List.replicate 102401 'x')).length
      = 102400 := by
    unfold fs_prepare_upload_content
    rw [if_pos (by rw [List.length_replicate]; omega)]
    simp only [List.length_append, List.length_take, List.length_replicate,
      hL]
    omega
  have h1 := congrArg List.length h
  rw [hLHS, List.length_append, List.length_take, List.length_replicate,
    hL] at h1
  omega

/-- C8 amended: a summary of at most 102400 characters is uploaded
unchanged; a longer one is truncated to its first
`102400 - len(notice)` characters followed by the size-embedding notice —
not its first 102400 characters plus the notice — so the uploaded content
is exactly 102400 characters.  The truncation is a total function (always a
value, never an error). -/
theorem c8_fs_truncation (s : List Char) :
    (s.length ≤ 102400 → fs_prepare_upload_content s = s) ∧
    (102400 < s.length →
      fs_prepare_upload_content s =
        s.take (102400 - (fs_truncation_note s.length).length) ++
          fs_truncation_note s.length ∧
      ((fs_truncation_note s.length).length ≤ 102400 →
        (fs_prepare_upload_content s).length = 102400)) := by
  constructor
  · intro h
    unfold fs_prepare_upload_content
    rw [if_neg (by omega)]
  · intro h
    have heq : fs_prepare_upload_content s =
        s.take (102400 - (fs_truncation_note s.length).length) ++
          fs_truncation_note s.length := by
      unfold fs_prepare_upload_content
      rw [if_pos (by omega), List.take_take]
      congr 1
      congr 1
      omega
    refine ⟨heq, fun hnote => ?_⟩
    rw [heq, List.length_append, List.length_take]
    omega

/-- Witness for C8 at a 3-character summary (returned unchanged) and a
102401-character summary (truncated to exactly 102400 characters). -/
theorem c8_fs_truncation_witness :
    fs_prepare_upload_content "abc".toList = "abc".toList ∧
    fs_prepare_upload_content (List.replicate 102401 'x') =
      (List.replicate 102401 'x').take
          (102400 - (fs_truncation_note 102401).length) ++
        fs_truncation_note 102401 ∧
    (fs_prepare_upload_content (List.replicate 102401 'x')).length =
      102400 := by
  have h1 := (c8_fs_truncation "abc".toList).1 (by decide)
  have h2 := (c8_fs_truncation (List.replicate 102401 'x')).2
    (by rw [List.length_replicate]; omega)
  refine ⟨h1, ?_, ?_⟩
  · have := h2.1
    rwa [List.length_replicate] at this
  · exact h2.2 (by rw [List.length_replicate]; decide)

/-! ## CLI offset validation — `ingest.py`, `main` (lines 478-508)

`argparse` parses `--batch-size` and `--offset` as Python ints, so both are
modelled as `Int`.  The source's only bound check is
`if args.offset >= args.batch_size: parser.error(...)` (line 481), which
exits with code 2 before `fetch_repos_json` runs; otherwise the feed is
fetched and filtered with `filter_repos_for_batch`.  Python `%` with integer
operands is floor-mod (`Int.fmod`) for a non-zero right operand and raises
`ZeroDivisionError` for a zero one, so the modulo is modelled as an `Option`
and the comprehension propagates the failure from the first element that
evaluates it; the `except Exception` block of `main` (lines 568-578) turns
such an exception into `sys.exit(1)`. -/

/-- Python `a % b` on ints: floor-mod, raising (`none`) when `b = 0`. -/
def pyMod (a b : Int) : Option Int :=
  if b = 0 then none else some (Int.fmod a b)

/-- The comprehension of `filter_repos_for_batch` over already-enumerated
pairs, evaluating `idx % batch_size == offset` left to right and propagating
a `ZeroDivisionError` (`none`) from the first element that raises. -/
def filterBatchAux {α : Type} (batch_size offset : Int) :
    List (Nat × α) → Option (List α)
  | [] => some []
  | p :: rest =>
    match pyMod (p.1 : Int) batch_size with
    | none => none
    | some m =>
      match filterBatchAux batch_size offset rest with
      | none => none
      | some l => some (if m == offset then p.2 :: l else l)

/-- `filter_repos_for_batch` at the `Int` types the CLI actually passes:
`none` models the `ZeroDivisionError` raised by `idx % 0` on a non-empty
feed. -/
def filter_repos_for_batch_int {α : Type} (repos : List α)
    (batch_size offset : Int) : Option (List α) :=
  filterBatchAux batch_size offset (enumerateFrom 0 repos)

inductive MainOutcome (α : Type) : Type
  | argError (code : Nat)
  | pipelineError (code : Nat)
  | ran (assigned : List α)
deriving DecidableEq

/-- `ingest.main` down to batch selection: argument validation (exit 2, no
fetch, no processing); then fetch and filter, where an exception — here the
`ZeroDivisionError` of `batch_size = 0` on a non-empty feed — is caught by
the `except Exception` block and exits 1; otherwise the run proceeds on the
selected partition. -/
def ingest_main {α : Type} (batch_size offset : Int) (feed : List α) :
    MainOutcome α :=
  if batch_size ≤ offset then .argError 2
  else
    match filter_repos_for_batch_int feed batch_size offset with
    | none => .pipelineError 1
    | some l => .ran l

theorem filterBatchAux_ne_zero {α : Type} (B o : Int) (hB : B ≠ 0) :
    ∀ l : List (Nat × α),
      filterBatchAux B o l =
        some ((l.filter (fun p => Int.fmod (p.1 : Int) B == o)).map
          Prod.snd) := by
  intro l
  induction l with
  | nil => rfl
  | cons p rest ih =>
    simp only [filterBatchAux, pyMod, if_neg hB, ih, List.filter_cons]
    rcases Bool.eq_false_or_eq_true (Int.fmod (p.1 : Int) B == o) with h | h
    · simp [h]
    · simp [h]

/-- C7 counterexample: two pairs violate `0 <= offset < batch_size` without
exiting 2.  `offset = -1, batch-size = 3` passes the code's only check
(`offset >= batch_size`) and the run proceeds, selecting nothing because
`idx % 3` is never `-1`; and `offset = -1, batch-size = 0` also passes the
check, then crashes with `ZeroDivisionError` after the fetch and exits 1,
not 2. -/
theorem c7_offset_validation_counterexample :
    ¬ (0 ≤ (-1 : Int)) ∧
    ingest_main 3 (-1) ([7] : List Nat) = .ran [] ∧
    ingest_main 3 (-1) ([7] : List Nat) ≠ .argError 2 ∧
    ingest_main 0 (-1) ([7] : List Nat) = .pipelineError 1 ∧
    ingest_main 0 (-1) ([7] : List Nat) ≠ .argError 2 :=
  ⟨by decide, by decide, by decide, by decide, by decide⟩

/-- C7 amended: the CLI exits with code 2 (before fetching the feed or
processing any item) exactly when `offset >= batch_size`; every pair with
`offset < batch_size` — including negative offsets — passes argument
validation.  When additionally `batch_size ≠ 0`, processing proceeds on the
floor-mod partition; when `batch_size = 0` (reachable only with a negative
offset) the run fetches the feed and then, on any non-empty feed, crashes
with `ZeroDivisionError` in the filter and exits 1 — still not the claimed
exit 2 (an empty feed never evaluates the modulo and proceeds with an empty
partition). -/
theorem c7_offset_validation {α : Type} (B o : Int) (feed : List α) :
    (B ≤ o → ingest_main B o feed = .argError 2) ∧
    (o < B → B ≠ 0 →
      ingest_main B o feed =
        .ran (((enumerateFrom 0 feed).filter
          (fun p => Int.fmod (p.1 : Int) B == o)).map Prod.snd)) ∧
    (o < B → B = 0 → feed ≠ [] →
      ingest_main B o feed = .pipelineError 1) ∧
    (o < B → B = 0 → feed = [] → ingest_main B o feed = .ran []) := by
  refine ⟨?_, ?_, ?_, ?_⟩
  · intro h
    simp [ingest_main, h]
  · intro h hB
    simp [ingest_main, not_le.mpr h, filter_repos_for_batch_int,
      filterBatchAux_ne_zero B o hB]
  · intro h hB hfeed
    subst hB
    rcases feed with - | ⟨x, rest⟩
    · exact absurd rfl hfeed
    · simp [ingest_main, not_le.mpr h, filter_repos_for_batch_int,
        enumerateFrom, filterBatchAux, pyMod]
  · intro h hB hfeed
    subst hB
    subst hfeed
    simp [ingest_main, not_le.mpr h, filter_repos_for_batch_int,
      enumerateFrom, filterBatchAux]

/-- Witness for C7: `offset = 5, batch-size = 3` exits 2 with nothing
processed; `offset = 3, batch-size = 10` is accepted and runs;
`offset = -1, batch-size = 0` passes validation, then the filter's
division by zero exits the run with code 1. -/
theorem c7_offset_validation_witness :
    ingest_main 3 5 ([0, 1, 2] : List Nat) = .argError 2 ∧
    ingest_main 10 3 ([] : List Nat) = .ran [] ∧
    ingest_main 0 (-1) ([5, 6] : List Nat) = .pipelineError 1 :=
  ⟨(c7_offset_validation 3 5 ([0, 1, 2] : List Nat)).1 (by decide),
   (c7_offset_validation 10 3 ([] : List Nat)).2.1 (by decide) (by decide),
   (c7_offset_validation 0 (-1) ([5, 6] : List Nat)).2.2.1 (by decide) rfl
     (by decide)⟩

/-! ## URL-to-key derivation — `ingest.py`, `upload_summary_to_r2`
(lines 147-171) and `r2_client.py`, `upload_summary` (lines 124-146)

The source computes `repo_url.rstrip("/").rstrip(".git").split("/")` and
takes the last two segments as `(org, repo)`.  Python `str.rstrip(chars)`
removes every trailing character belonging to the character *set* `chars` —
so `rstrip(".git")` strips trailing `'.'`, `'g'`, `'i'`, `'t'` characters,
not just a literal `".git"` suffix. -/

/-- Python `s.rstrip(chars)`: drop the longest trailing run of characters
belonging to `strip`. -/
def pyRstrip (s : List Char) (strip : List Char) : List Char :=
  (s.reverse.dropWhile (fun c => decide (c ∈ strip))).reverse

/-- Python `s.split(sep)` for a one-character separator: the segments
between occurrences of `sep`, empty segments preserved. -/
def pySplitChar (sep : Char) : List Char → List (List Char)
  | [] => [[]]
  | c :: cs =>
    if c = sep then [] :: pySplitChar sep cs
    else
      match pySplitChar sep cs with
      | s :: rest => (c :: s) :: rest
      | [] => [[c]]

/-- The character set of Python `rstrip(".git")`. -/
def gitStripChars : List Char := ['.', 'g', 'i', 't']

/-- The `(org, repo)` pair extracted by `upload_summary_to_r2`
(`ingest.py` lines 152-161): `none` models the `len(url_parts) < 2` early
`return False`. -/
def derive_org_repo (url : List Char) : Option (List Char × List Char) :=
  match (pySplitChar '/' (pyRstrip (pyRstrip url ['/']) gitStripChars)).reverse
      with
  | r :: o :: _ => some (o, r)
  | _ => none

/-- The R2 object key of `r2_client.upload_summary` (line 127). -/
def r2_key (org repo : List Char) : List Char :=
  "gitingest/".toList ++ org ++ "/".toList ++ repo ++ "/summary.txt".toList

theorem pySplitChar_no_sep (sep : Char) :
    ∀ l : List Char, sep ∉ l → pySplitChar sep l = [l] := by
  intro l
  induction l with
  | nil => intro _; rfl
  | cons c cs ih =>
    intro h
    have hc : ¬ c = sep := by rintro rfl; exact h (List.mem_cons_self _ _)
    have hcs : sep ∉ cs := fun hm => h (List.mem_cons_of_mem _ hm)
    simp [pySplitChar, hc, ih hcs]

theorem pySplitChar_append_sep (sep : Char) :
    ∀ xs ys : List Char, sep ∉ xs →
      pySplitChar sep (xs ++ sep :: ys) = xs :: pySplitChar sep ys := by
  intro xs
  induction xs with
  | nil => intro ys _; simp [pySplitChar]
  | cons x xs ih =>
    intro ys h
    have hx : ¬ x = sep := by rintro rfl; exact h (List.mem_cons_self _ _)
    have hxs : sep ∉ xs := fun hm => h (List.mem_cons_of_mem _ hm)
    simp [pySplitChar, hx, ih ys hxs]

theorem dropWhile_append_cons (p : Char → Bool) (l1 : List Char) (c : Char)
    (hc : p c = false) (l2 : List Char) :
    (l1 ++ c :: l2).dropWhile p = l1.dropWhile p ++ c :: l2 := by
  rw [List.dropWhile_append]
  rcases Bool.eq_false_or_eq_true (l1.dropWhile p).isEmpty with h | h
  · rw [if_pos h, List.isEmpty_iff.mp h, List.dropWhile_cons,
      if_neg (by simp [hc])]
    rfl
  · rw [if_neg (by simp [h])]

theorem pyRstrip_append (strip : List Char) (a : List Char) (c : Char)
    (hc : decide (c ∈ strip) = false) (b : List Char) :
    pyRstrip ((a ++ [c]) ++ b) strip = (a ++ [c]) ++ pyRstrip b strip := by
  unfold pyRstrip
  rw [List.reverse_append, show (a ++ [c]).reverse = c :: a.reverse by simp,
    dropWhile_append_cons _ _ _ hc]
  simp

theorem mem_pyRstrip {strip s : List Char} {c : Char}
    (h : c ∈ pyRstrip s strip) : c ∈ s := by
  unfold pyRstrip at h
  rw [List.mem_reverse] at h
  have h2 : s.reverse.dropWhile (fun d => decide (d ∈ strip)) <:+ s.reverse :=
    List.dropWhile_suffix _
  have h3 := h2.sublist.subset h
  rwa [List.mem_reverse] at h3

theorem head?_dropWhile_false (p : Char → Bool) :
    ∀ (l : List Char) (c : Char), (l.dropWhile p).head? = some c →
      p c = false := by
  intro l
  induction l with
  | nil => intro c h; cases h
  | cons x xs ih =>
    intro c h
    rw [List.dropWhile_cons] at h
    rcases Bool.eq_false_or_eq_true (p x) with hx | hx
    · rw [if_pos hx] at h
      exact ih c h
    · rw [if_neg (by simp [hx])] at h
      have hxc : x = c := Option.some.inj h
      rwa [← hxc]

theorem getLast?_pyRstrip {strip s : List Char} {c : Char}
    (h : (pyRstrip s strip).getLast? = some c) :
    decide (c ∈ strip) = false := by
  unfold pyRstrip at h
  rw [List.getLast?_reverse] at h
  exact head?_dropWhile_false _ _ _ h

theorem pyRstrip_length_lt (strip : List Char) (pre : List Char) (c : Char)
    (hc : decide (c ∈ strip) = true) :
    (pyRstrip (pre ++ [c]) strip).length < (pre ++ [c]).length := by
  unfold pyRstrip
  rw [List.length_reverse, show (pre ++ [c]).reverse = c :: pre.reverse by
    simp, List.dropWhile_cons, if_pos (by simpa using hc)]
  have hsfx : pre.reverse.dropWhile (fun d => decide (d ∈ strip)) <:+
      pre.reverse := List.dropWhile_suffix _
  have hle := hsfx.sublist.length_le
  rw [List.length_reverse] at hle
  rw [List.length_append]
  simp only [List.length_cons, List.length_nil]
  omega

theorem pySplitChar_cons_sep (ys : List Char) :
    pySplitChar '/' ('/' :: ys) = [] :: pySplitChar '/' ys := by
  simp [pySplitChar]

/-- C10: for a GitHub URL whose repository name ends in one of `'.'`, `'g'`,
`'i'`, `'t'`, the `(org, repo)` derivation of `upload_summary_to_r2` strips
every trailing character of that set from the name (Python
`rstrip(".git")` is a character-set strip, not a suffix strip): the derived
repo is `pyRstrip name gitStripChars`, which differs from the feed's name,
ends in no strip-set character, and therefore produces an R2 object key
different from the `gitingest/{owner}/{name}/summary.txt` key built from
the feed's own fields. -/
theorem c10_url_derivation (org name : List Char)
    (horg : '/' ∉ org) (hname : '/' ∉ name) (c : Char)
    (hlast : name.getLast? = some c) (hc : c ∈ gitStripChars) :
    derive_org_repo
        ("https://github.com/".toList ++ org ++ "/".toList ++ name) =
      some (org, pyRstrip name gitStripChars) ∧
    pyRstrip name gitStripChars ≠ name ∧
    (∀ d, (pyRstrip name gitStripChars).getLast? = some d →
      d ∉ gitStripChars) ∧
    r2_key org (pyRstrip name gitStripChars) ≠ r2_key org name := by
  obtain ⟨pre, rfl⟩ := List.getLast?_eq_some_iff.mp hlast
  have hcslash : c ≠ '/' := by
    intro he
    rw [he] at hc
    exact absurd hc (by decide)
  have hlt := pyRstrip_length_lt gitStripChars pre c (decide_eq_true hc)
  have hne : pyRstrip (pre ++ [c]) gitStripChars ≠ pre ++ [c] := by
    intro he
    rw [he] at hlt
    omega
  have hslash_c : decide (c ∈ (['/'] : List Char)) = false :=
    decide_eq_false (by simp [hcslash])
  have hslashlit : "/".toList = ['/'] := by decide
  have hA : pyRstrip
      ("https://github.com/".toList ++ org ++ "/".toList ++ (pre ++ [c]))
        ['/'] =
      "https://github.com/".toList ++ org ++ "/".toList ++ (pre ++ [c]) := by
    have h0 := pyRstrip_append ['/']
      ("https://github.com/".toList ++ org ++ "/".toList ++ pre) c hslash_c []
    have h1 : pyRstrip ([] : List Char) ['/'] = [] := rfl
    rw [h1, List.append_nil, List.append_assoc] at h0
    simpa [List.append_assoc] using h0
  have hgit_slash : decide (('/' : Char) ∈ gitStripChars) = false := by decide
  have hB : pyRstrip
      ("https://github.com/".toList ++ org ++ "/".toList ++ (pre ++ [c]))
        gitStripChars =
      ("https://github.com/".toList ++ org ++ "/".toList) ++
        pyRstrip (pre ++ [c]) gitStripChars := by
    have h0 := pyRstrip_append gitStripChars
      ("https://github.com/".toList ++ org) '/' hgit_slash (pre ++ [c])
    rw [hslashlit]
    simpa [List.append_assoc] using h0
  have hm_noslash : '/' ∉ pyRstrip (pre ++ [c]) gitStripChars :=
    fun hmem => hname (mem_pyRstrip hmem)
  have hlit : "https://github.com/".toList =
      "https:".toList ++ '/' :: '/' :: ("github.com".toList ++ ['/']) := by
    decide
  have hsplit : pySplitChar '/'
      (("https://github.com/".toList ++ org ++ "/".toList) ++
        pyRstrip (pre ++ [c]) gitStripChars) =
      ["https:".toList, [], "github.com".toList, org,
        pyRstrip (pre ++ [c]) gitStripChars] := by
    generalize pyRstrip (pre ++ [c]) gitStripChars = m at hm_noslash ⊢
    have e1 : ("https://github.com/".toList ++ org ++ "/".toList) ++ m =
        "https:".toList ++ '/' ::
          ('/' :: ("github.com".toList ++ '/' :: (org ++ '/' :: m))) := by
      rw [hlit, hslashlit]
      simp [List.append_assoc]
    rw [e1, pySplitChar_append_sep '/' "https:".toList _ (by decide),
      pySplitChar_cons_sep,
      pySplitChar_append_sep '/' "github.com".toList _ (by decide),
      pySplitChar_append_sep '/' org _ horg,
      pySplitChar_no_sep '/' m hm_noslash]
  refine ⟨?_, hne, ?_, ?_⟩
  · unfold derive_org_repo
    rw [hA, hB, hsplit]
    simp
  · intro d hd
    exact of_decide_eq_false (getLast?_pyRstrip hd)
  · intro h
    unfold r2_key at h
    simp only [List.append_assoc] at h
    have t1 := List.append_cancel_left h
    have t2 := List.append_cancel_left t1
    have t3 := List.append_cancel_left t2
    rw [← List.append_assoc] at t3
    exact hne (List.append_cancel_right t3)

/-- Witness for C10 at the URL `https://github.com/alphagov/audit`: the
derived repo name is `aud`, not `audit`, and the storage key differs from
the one built from the feed's `name` field. -/
theorem c10_url_derivation_witness :
    derive_org_repo
        ("https://github.com/".toList ++ "alphagov".toList ++ "/".toList ++
          "audit".toList) =
      some ("alphagov".toList, pyRstrip "audit".toList gitStripChars) ∧
    pyRstrip "audit".toList gitStripChars ≠ "audit".toList ∧
    (∀ d, (pyRstrip "audit".toList gitStripChars).getLast? = some d →
      d ∉ gitStripChars) ∧
    r2_key "alphagov".toList (pyRstrip "audit".toList gitStripChars) ≠
      r2_key "alphagov".toList "audit".toList :=
  c10_url_derivation "alphagov".toList "audit".toList (by decide) (by decide)
    't' (by decide) (by decide)

end GovRepoScrape
